import Mathlib

set_option maxHeartbeats 1000000
set_option maxRecDepth 100000

unseal Rat.mul Rat.inv Rat.add Rat.sub

/-
Verification of the ISHNE Holter ECG parser (src/main.ts).

The file models the authoritative second `IshneParser` class of main.ts
(lines 202-501).  Byte buffers are lists of byte values; JS strings are
modelled as their character-code sequences (the "ascii"/windows-1252 decoder
maps distinct bytes to distinct code points and maps byte 0 to U+0000, so
byte-level equality is equivalent to decoded-string equality for the
comparisons performed by the code).  Fallible operations return
Except/Option; an `Outcome` adds a `diverge` case for a loop whose bound is
the JS value Infinity.  IEEE-754 binary64 arithmetic is modelled exactly on
rationals by `fl` (round to nearest, ties to even, 53-bit significand; exact
for the normal range that all in-range computations of this program stay in).
-/

/-- A JS `Uint8Array` viewed as the list of its byte values. -/
abbrev ByteBuf := List Nat

/-- JS `buffer.slice(off, off + len)`: truncates at the end of the buffer. -/
def sliceBytes (buf : ByteBuf) (off len : Nat) : List Nat :=
  (buf.drop off).take len

/-- The regex replace of a trailing run of NUL characters, main.ts:216
(`replace` of the pattern "one or more NULs at end of string" by ""). -/
def stripTrailingNuls (l : List Nat) : List Nat :=
  (l.reverse.dropWhile (fun b => b == 0)).reverse

/-- `readString(offset, length)`, main.ts:212-217: decode a slice and remove
the trailing NUL characters. -/
def readStringBytes (buf : ByteBuf) (off len : Nat) : List Nat :=
  stripTrailingNuls (sliceBytes buf off len)

/-- Character codes of the ASCII literal "ISHNE1.0". -/
def magicBytes : List Nat := [73, 83, 72, 78, 69, 49, 46, 48]

/-- Little-endian unsigned 16-bit value at offset `k` (unchecked read;
out-of-range indices contribute 0, they are only used under bounds). -/
def val16 (buf : ByteBuf) (k : Nat) : Nat :=
  buf.getD k 0 + 256 * buf.getD (k + 1) 0

/-- Little-endian unsigned 32-bit value at offset `k` (unchecked read). -/
def val32 (buf : ByteBuf) (k : Nat) : Nat :=
  val16 buf k + 65536 * val16 buf (k + 2)

/-- Little-endian signed 16-bit value at offset `k` (unchecked read). -/
def int16val (buf : ByteBuf) (k : Nat) : Int :=
  if val16 buf k < 32768 then (val16 buf k : Int) else (val16 buf k : Int) - 65536

/-- `DataView.getUint16(k, true)`; `none` models the RangeError thrown when
the read would go past the end of the view. -/
def getUint16 (buf : ByteBuf) (k : Nat) : Option Nat :=
  if k + 2 ≤ buf.length then some (val16 buf k) else none

/-- `DataView.getUint32(k, true)`. -/
def getUint32 (buf : ByteBuf) (k : Nat) : Option Nat :=
  if k + 4 ≤ buf.length then some (val32 buf k) else none

/-- `DataView.getInt16(k, true)`. -/
def getInt16 (buf : ByteBuf) (k : Nat) : Option Int :=
  if k + 2 ≤ buf.length then some (int16val buf k) else none

/-- The kinds of exception the modelled code can throw:
`formatError` is the explicit `Error("Invalid ISHNE file format")`;
`stateError` the explicit `Error("Header must be parsed first")`;
`rangeError` a DataView out-of-bounds read or an invalid array length;
`typeError` reading `.length` of `undefined` (`ecgData[0]` with no leads). -/
inductive JsError where
  | formatError
  | stateError
  | rangeError
  | typeError
deriving DecidableEq

instance {ε α : Type} [DecidableEq ε] [DecidableEq α] : DecidableEq (Except ε α) :=
  fun x y =>
    match x, y with
    | .error e, .error f => decidable_of_iff (e = f) (by simp)
    | .ok a, .ok b => decidable_of_iff (a = b) (by simp)
    | .error _, .ok _ => isFalse (by simp)
    | .ok _, .error _ => isFalse (by simp)

/-- Lift a checked read into the exception monad (a failed DataView read
throws a RangeError). -/
def orRange {α : Type} (o : Option α) : Except JsError α :=
  match o with
  | some a => .ok a
  | none => .error .rangeError

/-- The header record built by `parseHeader`, main.ts:138-162 and 229-275.
Text fields hold the character codes of the decoded strings. -/
structure IshneHeader where
  varLengthBlockSize : Nat
  sampleSizeEcg : Nat
  offsetVarLengthBlock : Nat
  offsetEcgBlock : Nat
  fileVersion : Nat
  firstName : List Nat
  lastName : List Nat
  subjectId : List Nat
  sex : Nat
  race : Nat
  birthDate : Nat × Nat × Nat
  recordDate : Nat × Nat × Nat
  fileDate : Nat × Nat × Nat
  startTime : Nat × Nat × Nat
  nLeads : Nat
  leadSpec : List Int
  leadQuality : List Int
  resolution : List Int
  pacemaker : Nat
  recorder : List Nat
  samplingRate : Nat
  proprietary : List Nat
  copyright : List Nat
deriving DecidableEq

/-- Sequencing of fallible reads, used for the three 12-element arrays built
by `Array.from` in `parseHeader` (an out-of-bounds element read throws). -/
def mapExc {α β : Type} (f : α → Except JsError β) : List α → Except JsError (List β)
  | [] => .ok []
  | a :: l => f a >>= fun b => mapExc f l >>= fun bs => .ok (b :: bs)

/-- `parseHeader`, main.ts:219-278.  The magic number is checked first; all
later reads are DataView reads (which throw a RangeError when out of bounds,
`HEADER_START = 10`) or `readString` slices (which silently truncate). -/
def parseHeader (buf : ByteBuf) : Except JsError IshneHeader := do
  if readStringBytes buf 0 8 ≠ magicBytes then
    throw .formatError
  let varLengthBlockSize ← orRange (getUint32 buf 10)
  let sampleSizeEcg ← orRange (getUint32 buf 14)
  let offsetVarLengthBlock ← orRange (getUint32 buf 18)
  let offsetEcgBlock ← orRange (getUint32 buf 22)
  let fileVersion ← orRange (getUint16 buf 26)
  let sex ← orRange (getUint16 buf 128)
  let race ← orRange (getUint16 buf 130)
  let birth1 ← orRange (getUint16 buf 132)
  let birth2 ← orRange (getUint16 buf 134)
  let birth3 ← orRange (getUint16 buf 136)
  let record1 ← orRange (getUint16 buf 138)
  let record2 ← orRange (getUint16 buf 140)
  let record3 ← orRange (getUint16 buf 142)
  let file1 ← orRange (getUint16 buf 144)
  let file2 ← orRange (getUint16 buf 146)
  let file3 ← orRange (getUint16 buf 148)
  let start1 ← orRange (getUint16 buf 150)
  let start2 ← orRange (getUint16 buf 152)
  let start3 ← orRange (getUint16 buf 154)
  let nLeads ← orRange (getUint16 buf 156)
  let leadSpec ← mapExc (fun i => orRange (getInt16 buf (158 + 2 * i))) (List.range 12)
  let leadQuality ← mapExc (fun i => orRange (getInt16 buf (182 + 2 * i))) (List.range 12)
  let resolution ← mapExc (fun i => orRange (getInt16 buf (206 + 2 * i))) (List.range 12)
  let pacemaker ← orRange (getUint16 buf 230)
  let samplingRate ← orRange (getUint16 buf 272)
  return {
    varLengthBlockSize := varLengthBlockSize
    sampleSizeEcg := sampleSizeEcg
    offsetVarLengthBlock := offsetVarLengthBlock
    offsetEcgBlock := offsetEcgBlock
    fileVersion := fileVersion
    firstName := readStringBytes buf 28 40
    lastName := readStringBytes buf 68 40
    subjectId := readStringBytes buf 108 20
    sex := sex
    race := race
    birthDate := (birth1, birth2, birth3)
    recordDate := (record1, record2, record3)
    fileDate := (file1, file2, file3)
    startTime := (start1, start2, start3)
    nLeads := nLeads
    leadSpec := leadSpec
    leadQuality := leadQuality
    resolution := resolution
    pacemaker := pacemaker
    recorder := readStringBytes buf 232 40
    samplingRate := samplingRate
    proprietary := readStringBytes buf 274 80
    copyright := readStringBytes buf 354 80 }

/-- The header record a successful `parseHeader` run produces, written with
the unchecked readers. -/
def parsedHeader (buf : ByteBuf) : IshneHeader :=
  { varLengthBlockSize := val32 buf 10
    sampleSizeEcg := val32 buf 14
    offsetVarLengthBlock := val32 buf 18
    offsetEcgBlock := val32 buf 22
    fileVersion := val16 buf 26
    firstName := readStringBytes buf 28 40
    lastName := readStringBytes buf 68 40
    subjectId := readStringBytes buf 108 20
    sex := val16 buf 128
    race := val16 buf 130
    birthDate := (val16 buf 132, val16 buf 134, val16 buf 136)
    recordDate := (val16 buf 138, val16 buf 140, val16 buf 142)
    fileDate := (val16 buf 144, val16 buf 146, val16 buf 148)
    startTime := (val16 buf 150, val16 buf 152, val16 buf 154)
    nLeads := val16 buf 156
    leadSpec := (List.range 12).map (fun i => int16val buf (158 + 2 * i))
    leadQuality := (List.range 12).map (fun i => int16val buf (182 + 2 * i))
    resolution := (List.range 12).map (fun i => int16val buf (206 + 2 * i))
    pacemaker := val16 buf 230
    recorder := readStringBytes buf 232 40
    samplingRate := val16 buf 272
    proprietary := readStringBytes buf 274 80
    copyright := readStringBytes buf 354 80 }

/-- A JS number that is either a mathematical integer or one of the
non-finite values that division by zero produces. -/
inductive JsNum where
  | fin (n : Int)
  | posInf
  | negInf
  | nan
deriving DecidableEq

/-- `calculateActualSamples`, main.ts:280-291:
`Math.floor((buffer.length - offsetEcgBlock) / (2 * nLeads))`.
With `nLeads = 0` the JS division yields Infinity, -Infinity or NaN
(and `Math.floor` preserves them); otherwise `Math.floor` of the exact
quotient is integer floor division. -/
def calculateActualSamplesJs (buf : ByteBuf) (h : IshneHeader) : JsNum :=
  let avail : Int := (buf.length : Int) - (h.offsetEcgBlock : Int)
  if h.nLeads = 0 then
    if 0 < avail then .posInf else if avail < 0 then .negInf else .nan
  else
    .fin (Int.fdiv avail (2 * (h.nLeads : Int)))

/-- The buffer-derived actual samples-per-lead of the specification:
`floor((bufferLength - ecgBlockOffset) / (2 * nLeads))` for a header whose
ECG block starts inside the buffer. -/
def actualN (buf : ByteBuf) (h : IshneHeader) : Nat :=
  (buf.length - h.offsetEcgBlock) / (2 * h.nLeads)

/-- The byte offset of the first byte of the 16-bit sample read at sample
index `s`, lead index `lead`, main.ts:312:
`offsetEcgBlock + ((sample * nLeads + lead) * 2)`.  The read covers this
offset and the next one. -/
def sampleReadOffset (h : IshneHeader) (s lead : Nat) : Nat :=
  h.offsetEcgBlock + (s * h.nLeads + lead) * 2

/-- The raw signed 16-bit amplitude decoded for sample `i` of lead `lead`. -/
def rawAt (buf : ByteBuf) (h : IshneHeader) (i lead : Nat) : Int :=
  int16val buf (sampleReadOffset h i lead)

/-- Result of a JS computation: a value, a thrown exception, or
non-termination (a loop whose bound is Infinity). -/
inductive Outcome (α : Type) where
  | ok (a : α)
  | err (e : JsError)
  | diverge
deriving DecidableEq

/-- The value `parseEcgData` returns together with whether the non-fatal
sample-count diagnostic (`console.warn`, main.ts:318-323) was emitted. -/
structure EcgResult where
  data : List (List Int)
  warned : Bool
deriving DecidableEq

/-- Sequencing of fallible sample reads (the first failing `getInt16` throws;
the catch block of main.ts:325-333 logs and rethrows, so the error escapes). -/
def mapOpt {α β : Type} (f : α → Option β) : List α → Option (List β)
  | [] => some []
  | a :: l => (f a).bind fun b => (mapOpt f l).map fun bs => b :: bs

/-- The body of `parseEcgData` once the sample count has been computed,
main.ts:304-335.  The source loops sample-major and assigns
`ecgData[lead][sample]`; the model builds the identical per-lead lists lead
by lead.  A negative computed sample count makes `new Array(samplesPerLead)`
throw a RangeError; with `nLeads = 0` and a positive available byte count the
loop bound is Infinity and the empty-body loop never terminates; with
`nLeads = 0` otherwise the loop is skipped and the empty array is returned
(the warning always fires there since NaN and -Infinity differ from every
declared count). -/
def decodeWithCount (buf : ByteBuf) (h : IshneHeader) (j : JsNum) : Outcome EcgResult :=
  match j with
  | .posInf => .diverge
  | .negInf => .ok ⟨List.replicate h.nLeads [], true⟩
  | .nan => .ok ⟨List.replicate h.nLeads [], true⟩
  | .fin n =>
    if n < 0 then .err .rangeError
    else
      match mapOpt (fun lead =>
          mapOpt (fun s => getInt16 buf (sampleReadOffset h s lead))
            (List.range n.toNat)) (List.range h.nLeads) with
      | some data => .ok ⟨data, decide (n ≠ (h.sampleSizeEcg : Int))⟩
      | none => .err .rangeError

/-- `parseEcgData`, main.ts:293-336. -/
def parseEcgData (buf : ByteBuf) (hdr? : Option IshneHeader) : Outcome EcgResult :=
  match hdr? with
  | none => .err .stateError
  | some h => decodeWithCount buf h (calculateActualSamplesJs buf h)

/-- The per-lead decoded data a successful `parseEcgData` run produces. -/
def ecgDecoded (buf : ByteBuf) (h : IshneHeader) (n : Nat) : List (List Int) :=
  (List.range h.nLeads).map fun lead =>
    (List.range n).map fun s => int16val buf (sampleReadOffset h s lead)

/-- `ExportOptions`, main.ts:164-170; `none` is an absent option. -/
structure ExportOptions where
  separator : Option String := none
  includeHeader : Option Bool := none
  samplesPerLine : Option Nat := none
  timeColumn : Option Bool := none
  decimalPlaces : Option Nat := none
deriving DecidableEq

/-- Round to the nearest integer, ties to even (the IEEE-754 default). -/
def roundHE (x : ℚ) : ℤ :=
  let n := ⌊x⌋
  let f := x - (n : ℚ)
  if f < 1 / 2 then n
  else if 1 / 2 < f then n + 1
  else if 2 ∣ n then n else n + 1

/-- Binary exponent of a positive rational: the `e` with `2 ^ e ≤ q < 2 ^ (e+1)`.
Fuel-bounded structural recursion; the fuel covers `|q|` between `2 ^ (-400)`
and `2 ^ 400`, far beyond every value this program feeds it. -/
def binExpAux : Nat → ℚ → ℤ
  | 0, _ => 0
  | fuel + 1, q =>
    if 2 ≤ q then binExpAux fuel (q / 2) + 1
    else if q < 1 then binExpAux fuel (2 * q) - 1
    else 0

/-- Binary exponent of a positive rational. -/
def binExp (q : ℚ) : ℤ := binExpAux 400 q

/-- The IEEE-754 binary64 value nearest to a rational (round to nearest, ties
to even, 53-bit significand), as an exact rational.  Exact for arguments in
the normal finite range, which covers every computation modelled here. -/
def fl (q : ℚ) : ℚ :=
  if q = 0 then 0
  else
    let s : ℚ := if q < 0 then -1 else 1
    let a : ℚ := if q < 0 then -q else q
    let e := binExp a
    s * (roundHE (a * (2 : ℚ) ^ ((52 : ℤ) - e)) : ℚ) * (2 : ℚ) ^ (e - (52 : ℤ))

/-- The integer `n` produced by `Number.prototype.toFixed(d)` for the double
value `x`: the `n` with `n / 10 ^ d` closest to `x`, the larger on ties
(applied to the magnitude, with the sign restored). -/
def toFixedInt (x : ℚ) (d : Nat) : ℤ :=
  if x < 0 then -(round ((-x) * 10 ^ d)) else round (x * 10 ^ d)

/-- The exact rational value denoted by the string `x.toFixed(d)`. -/
def toFixedVal (x : ℚ) (d : Nat) : ℚ :=
  (toFixedInt x d : ℚ) / 10 ^ d

/-- The string `x.toFixed(d)` for a finite double value `x`: the decimal
digits of the rounded integer with a point before the last `d` digits. -/
def toFixedStr (x : ℚ) (d : Nat) : String :=
  let sgn : String := if x < 0 then "-" else ""
  let n : Nat := (round ((if x < 0 then -x else x) * 10 ^ d)).toNat
  let m : String := toString n
  if d = 0 then sgn ++ m
  else
    let m : String :=
      if m.length ≤ d then String.mk (List.replicate (d + 1 - m.length) '0') ++ m else m
    sgn ++ m.take (m.length - d) ++ "." ++ m.drop (m.length - d)

/-- The CSV cell for one sample, main.ts:483:
`(raw * resolution[lead] / 1000000).toFixed(d)`.  `raw * resolution[lead]`
is an exact integer in binary64 (its magnitude is below 2 ^ 31); the division
rounds.  A missing resolution entry (`resolution[lead]` is `undefined`, which
happens when `nLeads > 12`) makes the product NaN and `toFixed` yields "NaN". -/
def leadCellStr (raw : Int) (res? : Option Int) (d : Nat) : String :=
  match res? with
  | none => "NaN"
  | some res => toFixedStr (fl (((raw * res : Int) : ℚ) / 1000000)) d

/-- The CSV time cell, main.ts:479: `(i / samplingRate).toFixed(d)`.
Integer inputs are exact in binary64 (for every realistic index); a zero
sampling rate gives Infinity (or NaN at index 0), which `toFixed` renders
as its `ToString`. -/
def timeCellStr (i rate d : Nat) : String :=
  if rate = 0 then (if i = 0 then "NaN" else "Infinity")
  else toFixedStr (fl ((i : ℚ) / (rate : ℚ))) d

/-- The number emitted into the JSON leads array, main.ts:442:
`Number((raw * resolution[lead] / 1000000).toFixed(d))`; `none` models NaN
(missing resolution entry).  Re-parsing the fixed-point decimal string is
the correctly rounded conversion, i.e. `fl` of its exact value. -/
def jsonLeadValue (raw : Int) (res? : Option Int) (d : Nat) : Option ℚ :=
  match res? with
  | none => none
  | some res => some (fl (toFixedVal (fl (((raw * res : Int) : ℚ) / 1000000)) d))

/-- The column label of lead `i` (0-based), main.ts:470. -/
def leadLabel (i : Nat) : String := "Lead" ++ toString (i + 1) ++ "(mV)"

/-- The `headers` array built in main.ts:466-471: an optional time label
followed by one label per lead. -/
def csvHeaderLabels (h : IshneHeader) (timeColumn : Bool) : List String :=
  (if timeColumn then ["Time(s)"] else []) ++ (List.range h.nLeads).map leadLabel

/-- The CSV header row chunk, main.ts:472: `headers.join(separator) + "\n"`. -/
def headerRowString (h : IshneHeader) (sep : String) (timeColumn : Bool) : String :=
  String.intercalate sep (csvHeaderLabels h timeColumn) ++ "\n"

/-- The data row for sample index `i`, main.ts:476-487, written directly in
terms of the buffer bytes: optional time cell, then one scaled cell per lead,
joined by the separator, terminated by a newline. -/
def csvRowString (buf : ByteBuf) (h : IshneHeader) (sep : String) (timeColumn : Bool)
    (d : Nat) (i : Nat) : String :=
  String.intercalate sep
    ((if timeColumn then [timeCellStr i h.samplingRate d] else []) ++
      (List.range h.nLeads).map fun lead =>
        leadCellStr (rawAt buf h i lead) (h.resolution.get? lead) d) ++ "\n"

/-- Propagate a thrown exception or divergence out of a JS computation. -/
def obind {α β : Type} (o : Outcome α) (f : α → Outcome β) : Outcome β :=
  match o with
  | .ok a => f a
  | .err e => .err e
  | .diverge => .diverge

/-- Dereference `list[0]` and continue; reading `.length` of `undefined`
(an empty `ecgData`) throws a TypeError. -/
def headOrType {α β : Type} (l : List α) (f : α → Outcome β) : Outcome β :=
  match l.head? with
  | none => .err .typeError
  | some a => f a

/-- `generateCsvContent`, main.ts:450-488: the chunk sequence the generator
yields.  It decodes the samples, then yields the optional header row and one
row per index below `ecgData[0].length` (`ecgData[0]` is `undefined` when
there are no leads, so reading its `.length` throws a TypeError). -/
def generateCsvContent (buf : ByteBuf) (hdr? : Option IshneHeader)
    (opts : ExportOptions) : Outcome (List String) :=
  match hdr? with
  | none => .err .stateError
  | some h =>
    obind (parseEcgData buf (some h)) fun r =>
      headOrType r.data fun lead0 =>
        .ok ((if opts.includeHeader.getD true
              then [headerRowString h (opts.separator.getD ",") (opts.timeColumn.getD true)]
              else []) ++
          (List.range lead0.length).map fun i =>
            String.intercalate (opts.separator.getD ",")
              ((if opts.timeColumn.getD true
                then [timeCellStr i h.samplingRate (opts.decimalPlaces.getD 2)]
                else []) ++
                (List.range h.nLeads).map fun lead =>
                  leadCellStr ((r.data.getD lead []).getD i 0)
                    (h.resolution.get? lead) (opts.decimalPlaces.getD 2)) ++ "\n")

/-- The values emitted into `data.leads` by `generateJsonContent`,
main.ts:438-447: for each lead below `nLeads`, for each index below
`ecgData[lead].length`, the scaled value.  The generator dereferences
`ecgData[0]` earlier (the `duration` metadata, main.ts:416), so with no
leads it throws a TypeError.  The surrounding JSON punctuation chunks and
the metadata are not modelled; this is the emitted value sequence. -/
def generateJsonLeads (buf : ByteBuf) (hdr? : Option IshneHeader)
    (opts : ExportOptions) : Outcome (List (List (Option ℚ))) :=
  match hdr? with
  | none => .err .stateError
  | some h =>
    obind (parseEcgData buf (some h)) fun r =>
      headOrType r.data fun _ =>
        .ok ((List.range h.nLeads).map fun lead =>
          (List.range (r.data.getD lead []).length).map fun i =>
            jsonLeadValue ((r.data.getD lead []).getD i 0)
              (h.resolution.get? lead) (opts.decimalPlaces.getD 2))

/-- The chunk sequence `exportToCsv` writes to its sink, main.ts:494-496. -/
def exportToCsvChunks (buf : ByteBuf) (hdr? : Option IshneHeader)
    (opts : ExportOptions) : Outcome (List String) :=
  generateCsvContent buf hdr? opts

/-- `exportToText`, main.ts:498-500:
`exportToCsv(filePath, { ...options, separator: "\t" })`. -/
def exportToTextChunks (buf : ByteBuf) (hdr? : Option IshneHeader)
    (opts : ExportOptions) : Outcome (List String) :=
  exportToCsvChunks buf hdr? { opts with separator := some "\t" }

/-- Specification-side shape of the CSV chunk sequence (§4.3 of the spec,
with the scaled cells as the code computes them). -/
def csvChunksSpec (buf : ByteBuf) (h : IshneHeader) (opts : ExportOptions) : List String :=
  (if opts.includeHeader.getD true
    then [headerRowString h (opts.separator.getD ",") (opts.timeColumn.getD true)]
    else []) ++
  (List.range (actualN buf h)).map
    (csvRowString buf h (opts.separator.getD ",") (opts.timeColumn.getD true)
      (opts.decimalPlaces.getD 2))

/-- Specification-side shape of the JSON `data.leads` values: for every lead,
`actualN` scaled samples read off the buffer. -/
def jsonLeadsSpec (buf : ByteBuf) (h : IshneHeader) (opts : ExportOptions) :
    List (List (Option ℚ)) :=
  (List.range h.nLeads).map fun lead =>
    (List.range (actualN buf h)).map fun i =>
      jsonLeadValue (rawAt buf h i lead) (h.resolution.get? lead)
        (opts.decimalPlaces.getD 2)

/-- Extract the value at (lead, i) from a JSON-leads outcome. -/
def extractJsonAt (o : Outcome (List (List (Option ℚ)))) (lead i : Nat) : Option ℚ :=
  match o with
  | .ok leads => (leads.getD lead []).getD i none
  | _ => none

/-- The exact decimal rounding `round(q, d)` asserted by the specification,
with the half-up tie rule (`round` in Mathlib rounds ties up). -/
def claimRound (q : ℚ) (d : Nat) : ℚ :=
  (round (q * 10 ^ d) : ℚ) / 10 ^ d

/-- The exact decimal rounding with the half-even tie rule, the other
reasonable reading of `round(q, d)`. -/
def claimRoundHE (q : ℚ) (d : Nat) : ℚ :=
  (roundHE (q * 10 ^ d) : ℚ) / 10 ^ d

/-- A concrete well-formed ISHNE file: valid magic, declared sample count 5,
ECG block offset 274, one lead with resolution 1000 nV, sampling rate 250,
and 4 bytes of ECG data (two samples: 1015 and 100). -/
def testBuf : ByteBuf :=
  (List.range 278).map fun k =>
    if k < 8 then magicBytes.getD k 0
    else if k = 14 then 5
    else if k = 22 then 18
    else if k = 23 then 1
    else if k = 156 then 1
    else if k = 206 then 232
    else if k = 207 then 3
    else if k = 272 then 250
    else if k = 274 then 247
    else if k = 275 then 3
    else if k = 276 then 100
    else 0

/-- A 300-byte buffer starting with the valid magic, shorter than the fixed
header region (434 bytes of fixed layout, 512-byte header). -/
def buf300 : ByteBuf := magicBytes ++ List.replicate 292 0

/-- A 10-byte all-zero buffer; its (unchecked) header record has
`nLeads = 0` and `offsetEcgBlock = 0`. -/
def bufC7 : ByteBuf := List.replicate 10 0

/- ------------------------------------------------------------------ -/
/- Helper lemmas                                                      -/
/- ------------------------------------------------------------------ -/

theorem ok_bind {ε α β : Type} (a : α) (f : α → Except ε β) :
    (Except.ok a >>= f) = f a := rfl

theorem error_bind {ε α β : Type} (e : ε) (f : α → Except ε β) :
    ((Except.error e : Except ε α) >>= f) = Except.error e := rfl

theorem pure_except {ε α : Type} (a : α) : (pure a : Except ε α) = Except.ok a := rfl

theorem throw_except {α : Type} (e : JsError) :
    (throw e : Except JsError α) = Except.error e := rfl

theorem orRange_some {α : Type} (a : α) : orRange (some a) = Except.ok a := rfl

theorem orRange_none {α : Type} : orRange (none : Option α) = Except.error .rangeError := rfl

theorem orRange_ok {α : Type} {o : Option α} {a : α} (h : orRange o = .ok a) :
    o = some a := by
  cases o with
  | none => exact absurd h (by simp [orRange])
  | some b => simpa [orRange] using h

theorem getUint16_of {buf : ByteBuf} {k : Nat} (h : k + 2 ≤ buf.length) :
    getUint16 buf k = some (val16 buf k) := if_pos h

theorem getUint32_of {buf : ByteBuf} {k : Nat} (h : k + 4 ≤ buf.length) :
    getUint32 buf k = some (val32 buf k) := if_pos h

theorem getInt16_of {buf : ByteBuf} {k : Nat} (h : k + 2 ≤ buf.length) :
    getInt16 buf k = some (int16val buf k) := if_pos h

theorem getUint16_some {buf : ByteBuf} {k : Nat} {v : Nat}
    (h : getUint16 buf k = some v) : k + 2 ≤ buf.length ∧ v = val16 buf k := by
  unfold getUint16 at h
  split at h
  · exact ⟨by assumption, (Option.some.inj h).symm⟩
  · cases h

theorem getUint32_some {buf : ByteBuf} {k : Nat} {v : Nat}
    (h : getUint32 buf k = some v) : k + 4 ≤ buf.length ∧ v = val32 buf k := by
  unfold getUint32 at h
  split at h
  · exact ⟨by assumption, (Option.some.inj h).symm⟩
  · cases h

theorem getInt16_some {buf : ByteBuf} {k : Nat} {v : Int}
    (h : getInt16 buf k = some v) : k + 2 ≤ buf.length ∧ v = int16val buf k := by
  unfold getInt16 at h
  split at h
  · exact ⟨by assumption, (Option.some.inj h).symm⟩
  · cases h

theorem mapExc_ok_of {α β : Type} {f : α → Except JsError β} {g : α → β}
    (l : List α) (h : ∀ a ∈ l, f a = .ok (g a)) : mapExc f l = .ok (l.map g) := by
  induction l with
  | nil => rfl
  | cons a l ih =>
    rw [mapExc, h a (List.mem_cons_self a l),
      ih (fun x hx => h x (List.mem_cons_of_mem _ hx)), ok_bind, ok_bind, List.map_cons]

theorem mapExc_ok_elim {α β : Type} {f : α → Except JsError β} {g : α → β} :
    ∀ {l : List α} {vs : List β}, mapExc f l = .ok vs →
      (∀ a ∈ l, ∀ v, f a = .ok v → v = g a) → vs = l.map g := by
  intro l
  induction l with
  | nil => intro vs h _; simpa [mapExc] using h.symm
  | cons a l ih =>
    intro vs h hg
    rw [mapExc] at h
    cases hfa : f a with
    | error e => rw [hfa, error_bind] at h; cases h
    | ok b =>
      rw [hfa, ok_bind] at h
      cases hml : mapExc f l with
      | error e => rw [hml, error_bind] at h; cases h
      | ok bs =>
        rw [hml, ok_bind] at h
        have hvs := (Except.ok.inj h).symm
        rw [hvs, List.map_cons, hg a (List.mem_cons_self a l) b hfa,
          ih hml (fun x hx => hg x (List.mem_cons_of_mem _ hx))]

theorem mapOpt_ok_of {α β : Type} {f : α → Option β} {g : α → β}
    (l : List α) (h : ∀ a ∈ l, f a = some (g a)) : mapOpt f l = some (l.map g) := by
  induction l with
  | nil => rfl
  | cons a l ih =>
    rw [mapOpt, h a (List.mem_cons_self a l),
      ih (fun x hx => h x (List.mem_cons_of_mem _ hx))]
    rfl

theorem obind_ok {α β : Type} (a : α) (f : α → Outcome β) :
    obind (.ok a) f = f a := rfl

theorem headOrType_of {α β : Type} {l : List α} {a : α} (h : l.head? = some a)
    (f : α → Outcome β) : headOrType l f = f a := by
  unfold headOrType
  rw [h]

theorem getD_map_range {α : Type} (f : Nat → α) {i n : Nat} (h : i < n) (d : α) :
    ((List.range n).map f).getD i d = f i := by
  rw [List.getD_eq_getD_get?, List.get?_map, List.get?_range h]
  rfl

theorem dropWhile_head?_false {α : Type} {p : α → Bool} :
    ∀ {l : List α} {x : α}, (List.dropWhile p l).head? = some x → p x = false := by
  intro l
  induction l with
  | nil => intro x h; simp [List.dropWhile] at h
  | cons a l ih =>
    intro x h
    by_cases hpa : p a
    · rw [List.dropWhile_cons_of_pos hpa] at h; exact ih h
    · rw [List.dropWhile_cons_of_neg hpa] at h
      have hx := Option.some.inj h
      rw [← hx]
      exact Bool.eq_false_iff.mpr hpa

theorem stripTrailingNuls_restore (l : List Nat) :
    stripTrailingNuls l ++
      List.replicate (List.takeWhile (fun b => b == 0) l.reverse).length 0 = l := by
  have h1 : (List.takeWhile (fun b => b == 0) l.reverse).reverse =
      List.replicate (List.takeWhile (fun b => b == 0) l.reverse).length 0 := by
    rw [List.eq_replicate]
    refine ⟨by simp, fun b hb => ?_⟩
    simpa using List.mem_takeWhile_imp (List.mem_reverse.mp hb)
  rw [stripTrailingNuls, ← h1, ← List.reverse_append,
    List.takeWhile_append_dropWhile, List.reverse_reverse]

theorem stripTrailingNuls_last (l : List Nat) :
    (stripTrailingNuls l).getLast? ≠ some 0 := by
  intro hlast
  rw [stripTrailingNuls, List.getLast?_reverse] at hlast
  have := dropWhile_head?_false hlast
  simp at this

theorem stripTrailingNuls_length (l : List Nat) :
    (stripTrailingNuls l).length ≤ l.length := by
  rw [stripTrailingNuls, List.length_reverse]
  calc (List.dropWhile (fun b => b == 0) l.reverse).length
      ≤ l.reverse.length := (List.dropWhile_sublist (l := l.reverse) _).length_le
    _ = l.length := List.length_reverse l

theorem mapExc_orRange_err {α β : Type} {f : α → Option β} (l : List α) :
    ∀ {e : JsError}, mapExc (fun a => orRange (f a)) l = .error e → e = .rangeError := by
  induction l with
  | nil => intro e h; cases h
  | cons a l ih =>
    intro e h
    rw [mapExc] at h
    cases hfa : f a with
    | none => rw [hfa, orRange_none, error_bind] at h; exact (Except.error.inj h).symm
    | some b =>
      rw [hfa, orRange_some, ok_bind] at h
      cases hml : mapExc (fun a => orRange (f a)) l with
      | error e2 =>
        rw [hml, error_bind] at h
        rw [← Except.error.inj h]
        exact ih hml
      | ok bs => rw [hml, ok_bind] at h; cases h

/-- Normal form of `parseHeader`: the magic check decides `formatError`; with
a valid magic every DataView read is in bounds exactly when the buffer holds
at least 274 bytes (the end of the samplingRate field, the furthest DataView
read), and then the parse succeeds; otherwise some DataView read throws a
RangeError.  The text-field slices never throw. -/
theorem parseHeader_eq (buf : ByteBuf) : parseHeader buf =
    if readStringBytes buf 0 8 ≠ magicBytes then .error .formatError
    else if buf.length < 274 then .error .rangeError
    else .ok (parsedHeader buf) := by
  by_cases hm : readStringBytes buf 0 8 ≠ magicBytes
  · rw [if_pos hm]
    unfold parseHeader
    rw [if_pos hm, throw_except, error_bind]
  · rw [if_neg hm]
    unfold parseHeader
    rw [if_neg hm, pure_except, ok_bind]
    by_cases hlen : buf.length < 274
    · rw [if_pos hlen]
      rcases h1 : getUint32 buf 10 with _ | v1
      · rw [orRange_none, error_bind]
      rw [orRange_some, ok_bind]
      rcases h2 : getUint32 buf 14 with _ | v2
      · rw [orRange_none, error_bind]
      rw [orRange_some, ok_bind]
      rcases h3 : getUint32 buf 18 with _ | v3
      · rw [orRange_none, error_bind]
      rw [orRange_some, ok_bind]
      rcases h4 : getUint32 buf 22 with _ | v4
      · rw [orRange_none, error_bind]
      rw [orRange_some, ok_bind]
      rcases h5 : getUint16 buf 26 with _ | v5
      · rw [orRange_none, error_bind]
      rw [orRange_some, ok_bind]
      rcases h6 : getUint16 buf 128 with _ | v6
      · rw [orRange_none, error_bind]
      rw [orRange_some, ok_bind]
      rcases h7 : getUint16 buf 130 with _ | v7
      · rw [orRange_none, error_bind]
      rw [orRange_some, ok_bind]
      rcases h8 : getUint16 buf 132 with _ | v8
      · rw [orRange_none, error_bind]
      rw [orRange_some, ok_bind]
      rcases h9 : getUint16 buf 134 with _ | v9
      · rw [orRange_none, error_bind]
      rw [orRange_some, ok_bind]
      rcases h10 : getUint16 buf 136 with _ | v10
      · rw [orRange_none, error_bind]
      rw [orRange_some, ok_bind]
      rcases h11 : getUint16 buf 138 with _ | v11
      · rw [orRange_none, error_bind]
      rw [orRange_some, ok_bind]
      rcases h12 : getUint16 buf 140 with _ | v12
      · rw [orRange_none, error_bind]
      rw [orRange_some, ok_bind]
      rcases h13 : getUint16 buf 142 with _ | v13
      · rw [orRange_none, error_bind]
      rw [orRange_some, ok_bind]
      rcases h14 : getUint16 buf 144 with _ | v14
      · rw [orRange_none, error_bind]
      rw [orRange_some, ok_bind]
      rcases h15 : getUint16 buf 146 with _ | v15
      · rw [orRange_none, error_bind]
      rw [orRange_some, ok_bind]
      rcases h16 : getUint16 buf 148 with _ | v16
      · rw [orRange_none, error_bind]
      rw [orRange_some, ok_bind]
      rcases h17 : getUint16 buf 150 with _ | v17
      · rw [orRange_none, error_bind]
      rw [orRange_some, ok_bind]
      rcases h18 : getUint16 buf 152 with _ | v18
      · rw [orRange_none, error_bind]
      rw [orRange_some, ok_bind]
      rcases h19 : getUint16 buf 154 with _ | v19
      · rw [orRange_none, error_bind]
      rw [orRange_some, ok_bind]
      rcases h20 : getUint16 buf 156 with _ | v20
      · rw [orRange_none, error_bind]
      rw [orRange_some, ok_bind]
      rcases h21 : mapExc (fun i => orRange (getInt16 buf (158 + 2 * i))) (List.range 12) with e21 | v21
      · rw [error_bind, mapExc_orRange_err _ h21]
      rw [ok_bind]
      rcases h22 : mapExc (fun i => orRange (getInt16 buf (182 + 2 * i))) (List.range 12) with e22 | v22
      · rw [error_bind, mapExc_orRange_err _ h22]
      rw [ok_bind]
      rcases h23 : mapExc (fun i => orRange (getInt16 buf (206 + 2 * i))) (List.range 12) with e23 | v23
      · rw [error_bind, mapExc_orRange_err _ h23]
      rw [ok_bind]
      rcases h24 : getUint16 buf 230 with _ | v24
      · rw [orRange_none, error_bind]
      rw [orRange_some, ok_bind]
      rcases h25 : getUint16 buf 272 with _ | v25
      · rw [orRange_none, error_bind]
      exact absurd (getUint16_some h25).1 (by omega)
    · rw [if_neg hlen]
      have hL : 274 ≤ buf.length := by omega
      have t32 : ∀ k, k + 4 ≤ 274 → orRange (getUint32 buf k) = Except.ok (val32 buf k) :=
        fun k hk => by rw [getUint32_of (le_trans hk hL)]; rfl
      have t16 : ∀ k, k + 2 ≤ 274 → orRange (getUint16 buf k) = Except.ok (val16 buf k) :=
        fun k hk => by rw [getUint16_of (le_trans hk hL)]; rfl
      have tm : ∀ c, c + 24 ≤ 274 →
          mapExc (fun i => orRange (getInt16 buf (c + 2 * i))) (List.range 12) =
            Except.ok ((List.range 12).map fun i => int16val buf (c + 2 * i)) :=
        fun c hc => mapExc_ok_of _ (fun i hi => by
          rw [getInt16_of (show c + 2 * i + 2 ≤ buf.length by
            have := List.mem_range.mp hi; omega)]
          rfl)
      rw [t32 10 (by omega), ok_bind, t32 14 (by omega), ok_bind,
        t32 18 (by omega), ok_bind, t32 22 (by omega), ok_bind,
        t16 26 (by omega), ok_bind, t16 128 (by omega), ok_bind,
        t16 130 (by omega), ok_bind, t16 132 (by omega), ok_bind,
        t16 134 (by omega), ok_bind, t16 136 (by omega), ok_bind,
        t16 138 (by omega), ok_bind, t16 140 (by omega), ok_bind,
        t16 142 (by omega), ok_bind, t16 144 (by omega), ok_bind,
        t16 146 (by omega), ok_bind, t16 148 (by omega), ok_bind,
        t16 150 (by omega), ok_bind, t16 152 (by omega), ok_bind,
        t16 154 (by omega), ok_bind, t16 156 (by omega), ok_bind,
        tm 158 (by omega), ok_bind, tm 182 (by omega), ok_bind,
        tm 206 (by omega), ok_bind,
        t16 230 (by omega), ok_bind, t16 272 (by omega), ok_bind]
      rfl

theorem read_offset_bound {buf : ByteBuf} {h : IshneHeader}
    (_hL : 1 ≤ h.nLeads) (hO : h.offsetEcgBlock ≤ buf.length)
    {s lead : Nat} (hs : s < actualN buf h) (hl : lead < h.nLeads) :
    sampleReadOffset h s lead + 2 ≤ buf.length := by
  have hs1 : s + 1 ≤ (buf.length - h.offsetEcgBlock) / (2 * h.nLeads) := hs
  have h1 : s * h.nLeads + lead + 1 ≤ (s + 1) * h.nLeads := by
    have h2 : lead + 1 ≤ h.nLeads := hl
    calc s * h.nLeads + lead + 1 ≤ s * h.nLeads + h.nLeads := by omega
      _ = (s + 1) * h.nLeads := by ring
  have h2 : (s + 1) * h.nLeads ≤
      ((buf.length - h.offsetEcgBlock) / (2 * h.nLeads)) * h.nLeads :=
    mul_le_mul_right' hs1 _
  have h3 : ((buf.length - h.offsetEcgBlock) / (2 * h.nLeads)) * h.nLeads * 2
      ≤ buf.length - h.offsetEcgBlock := by
    calc ((buf.length - h.offsetEcgBlock) / (2 * h.nLeads)) * h.nLeads * 2
        = ((buf.length - h.offsetEcgBlock) / (2 * h.nLeads)) * (2 * h.nLeads) := by ring
      _ ≤ buf.length - h.offsetEcgBlock :=
        Nat.div_mul_le_self (buf.length - h.offsetEcgBlock) (2 * h.nLeads)
  have hfin : (s * h.nLeads + lead) * 2 + 2 ≤ buf.length - h.offsetEcgBlock := by
    have h5 : (s * h.nLeads + lead) * 2 + 2 = (s * h.nLeads + lead + 1) * 2 := by ring
    rw [h5]
    exact le_trans (mul_le_mul_right' h1 2) (le_trans (mul_le_mul_right' h2 2) h3)
  unfold sampleReadOffset
  calc h.offsetEcgBlock + (s * h.nLeads + lead) * 2 + 2
      = h.offsetEcgBlock + ((s * h.nLeads + lead) * 2 + 2) := by ring
    _ ≤ h.offsetEcgBlock + (buf.length - h.offsetEcgBlock) := Nat.add_le_add_left hfin _
    _ = buf.length := by omega

theorem calcActual_fin {buf : ByteBuf} {h : IshneHeader}
    (hL : 1 ≤ h.nLeads) (hO : h.offsetEcgBlock ≤ buf.length) :
    calculateActualSamplesJs buf h = .fin ((actualN buf h : Nat) : Int) := by
  unfold calculateActualSamplesJs actualN
  rw [if_neg (by omega)]
  congr 1
  have hc : (buf.length : ℤ) - (h.offsetEcgBlock : ℤ) =
      ((buf.length - h.offsetEcgBlock : ℕ) : ℤ) := by omega
  have h2 : (2 : ℤ) * (h.nLeads : ℤ) = ((2 * h.nLeads : ℕ) : ℤ) := by push_cast; ring
  rw [hc, h2, Int.fdiv_eq_tdiv (Int.natCast_nonneg _) (Int.natCast_nonneg _),
    ← Int.ofNat_tdiv]

theorem decodeWithCount_fin (buf : ByteBuf) (h : IshneHeader) (n : Int) :
    decodeWithCount buf h (.fin n) =
      if n < 0 then .err .rangeError
      else
        match mapOpt (fun lead =>
            mapOpt (fun s => getInt16 buf (sampleReadOffset h s lead))
              (List.range n.toNat)) (List.range h.nLeads) with
        | some data => .ok ⟨data, decide (n ≠ (h.sampleSizeEcg : Int))⟩
        | none => .err .rangeError := rfl

theorem parseEcgData_ok_full {buf : ByteBuf} {h : IshneHeader}
    (hL : 1 ≤ h.nLeads) (hO : h.offsetEcgBlock ≤ buf.length) :
    parseEcgData buf (some h) =
      .ok ⟨ecgDecoded buf h (actualN buf h),
        decide (actualN buf h ≠ h.sampleSizeEcg)⟩ := by
  have hstep : parseEcgData buf (some h) =
      decodeWithCount buf h (calculateActualSamplesJs buf h) := rfl
  rw [hstep, calcActual_fin hL hO, decodeWithCount_fin,
    if_neg (not_lt.mpr (Int.natCast_nonneg _)), Int.toNat_ofNat]
  have hmap : mapOpt (fun lead =>
      mapOpt (fun s => getInt16 buf (sampleReadOffset h s lead))
        (List.range (actualN buf h))) (List.range h.nLeads) =
      some (ecgDecoded buf h (actualN buf h)) := by
    unfold ecgDecoded
    apply mapOpt_ok_of
    intro lead hlead
    apply mapOpt_ok_of
    intro s hs
    exact getInt16_of
      (read_offset_bound hL hO (List.mem_range.mp hs) (List.mem_range.mp hlead))
  rw [hmap]
  exact congrArg
    (fun b => Outcome.ok (⟨ecgDecoded buf h (actualN buf h), b⟩ : EcgResult))
    (by rw [decide_eq_decide]; exact not_congr Nat.cast_inj)

theorem ecgDecoded_head {buf : ByteBuf} {h : IshneHeader} {n : Nat} (hL : 1 ≤ h.nLeads) :
    (ecgDecoded buf h n).head? =
      some ((List.range n).map fun s => int16val buf (sampleReadOffset h s 0)) := by
  unfold ecgDecoded
  obtain ⟨L, hL'⟩ : ∃ L, h.nLeads = L + 1 := ⟨h.nLeads - 1, by omega⟩
  rw [hL', List.range_succ_eq_map, List.map_cons, List.head?_cons]

theorem ecgDecoded_getD {buf : ByteBuf} {h : IshneHeader} {n lead : Nat}
    (hl : lead < h.nLeads) :
    (ecgDecoded buf h n).getD lead [] =
      (List.range n).map fun s => int16val buf (sampleReadOffset h s lead) := by
  unfold ecgDecoded
  exact getD_map_range _ hl _

theorem generateCsv_ok {buf : ByteBuf} {h : IshneHeader} {opts : ExportOptions}
    (hL : 1 ≤ h.nLeads) (hO : h.offsetEcgBlock ≤ buf.length) :
    generateCsvContent buf (some h) opts = .ok (csvChunksSpec buf h opts) := by
  unfold generateCsvContent
  dsimp only
  rw [parseEcgData_ok_full hL hO, obind_ok]
  dsimp only
  rw [headOrType_of (ecgDecoded_head hL)]
  rw [List.length_map, List.length_range]
  unfold csvChunksSpec
  refine congrArg Outcome.ok (congrArg _ ?_)
  refine List.map_congr_left (fun i hi => ?_)
  unfold csvRowString
  refine congrArg (fun t => t ++ "\n") (congrArg _ (congrArg _ ?_))
  refine List.map_congr_left (fun lead hlead => ?_)
  rw [ecgDecoded_getD (List.mem_range.mp hlead),
    getD_map_range _ (List.mem_range.mp hi)]
  rfl

theorem generateJson_ok {buf : ByteBuf} {h : IshneHeader} {opts : ExportOptions}
    (hL : 1 ≤ h.nLeads) (hO : h.offsetEcgBlock ≤ buf.length) :
    generateJsonLeads buf (some h) opts = .ok (jsonLeadsSpec buf h opts) := by
  unfold generateJsonLeads
  dsimp only
  rw [parseEcgData_ok_full hL hO, obind_ok]
  dsimp only
  rw [headOrType_of (ecgDecoded_head hL)]
  unfold jsonLeadsSpec
  refine congrArg Outcome.ok ?_
  refine List.map_congr_left (fun lead hlead => ?_)
  rw [ecgDecoded_getD (List.mem_range.mp hlead), List.length_map, List.length_range]
  refine List.map_congr_left (fun i hi => ?_)
  rw [getD_map_range _ (List.mem_range.mp hi)]
  rfl

/- ------------------------------------------------------------------ -/
/- Claim theorems                                                     -/
/- ------------------------------------------------------------------ -/

/-- C1: for every parsed header with ECG block offset `O` and lead count
`L ≥ 1`, and every buffer of length `B ≥ O`, the actual samples-per-lead
value computed by `calculateActualSamples` equals `floor((B - O) / (2 * L))`
exactly (`Nat` division is floor division). -/
theorem C1_calculateActualSamples (buf : ByteBuf) (h : IshneHeader)
    (hL : 1 ≤ h.nLeads) (hO : h.offsetEcgBlock ≤ buf.length) :
    calculateActualSamplesJs buf h =
      .fin (((buf.length - h.offsetEcgBlock) / (2 * h.nLeads) : Nat) : Int) :=
  calcActual_fin hL hO

theorem C1_witness :
    calculateActualSamplesJs testBuf (parsedHeader testBuf) = .fin 2 :=
  C1_calculateActualSamples testBuf (parsedHeader testBuf) (by decide) (by decide)

/-- C2: for every buffer and parsed header with `ecgBlockOffset ≤ B` and
`nLeads ≥ 1`, every byte offset read during sample demultiplexing lies in
`[0, B)`: the 16-bit read at `sampleReadOffset` touches offsets
`sampleReadOffset` and `sampleReadOffset + 1`, both below `B`, and the read
succeeds. -/
theorem C2_reads_in_bounds (buf : ByteBuf) (h : IshneHeader)
    (hL : 1 ≤ h.nLeads) (hO : h.offsetEcgBlock ≤ buf.length)
    (s lead : Nat) (hs : s < actualN buf h) (hl : lead < h.nLeads) :
    sampleReadOffset h s lead + 2 ≤ buf.length ∧
      (getInt16 buf (sampleReadOffset h s lead)).isSome = true :=
  ⟨read_offset_bound hL hO hs hl, by
    rw [getInt16_of (read_offset_bound hL hO hs hl)]; rfl⟩

theorem C2_witness :
    sampleReadOffset (parsedHeader testBuf) 1 0 + 2 ≤ testBuf.length ∧
      (getInt16 testBuf (sampleReadOffset (parsedHeader testBuf) 1 0)).isSome = true :=
  C2_reads_in_bounds testBuf (parsedHeader testBuf) (by decide) (by decide) 1 0
    (by decide) (by decide)

/-- C5: for every parsed header (with its spec invariants `nLeads ≥ 1` and
`ecgBlockOffset ≤ B`) and every options value, the CSV/text export produces
exactly `actualSamplesPerLead` data rows plus one header row iff
`includeHeader` is set, and the JSON `data.leads` holds `nLeads` sequences
of exactly `actualSamplesPerLead` elements — the buffer-derived count. -/
theorem C5_counts (buf : ByteBuf) (h : IshneHeader) (opts : ExportOptions)
    (hL : 1 ≤ h.nLeads) (hO : h.offsetEcgBlock ≤ buf.length) :
    (∃ chunks, generateCsvContent buf (some h) opts = .ok chunks ∧
      chunks.length =
        (if opts.includeHeader.getD true then 1 else 0) + actualN buf h) ∧
    (∃ leads, generateJsonLeads buf (some h) opts = .ok leads ∧
      leads.length = h.nLeads ∧ ∀ l ∈ leads, l.length = actualN buf h) := by
  constructor
  · refine ⟨csvChunksSpec buf h opts, generateCsv_ok hL hO, ?_⟩
    unfold csvChunksSpec
    rw [List.length_append, List.length_map, List.length_range]
    by_cases hih : opts.includeHeader.getD true <;> simp [hih]
  · refine ⟨jsonLeadsSpec buf h opts, generateJson_ok hL hO, ?_, ?_⟩
    · unfold jsonLeadsSpec
      rw [List.length_map, List.length_range]
    · intro l hl
      unfold jsonLeadsSpec at hl
      obtain ⟨lead, _, rfl⟩ := List.mem_map.mp hl
      rw [List.length_map, List.length_range]

theorem C5_witness :
    (∃ chunks, generateCsvContent testBuf (some (parsedHeader testBuf)) {} =
      .ok chunks ∧ chunks.length = 3) ∧
    (∃ leads, generateJsonLeads testBuf (some (parsedHeader testBuf)) {} =
      .ok leads ∧ leads.length = 1 ∧ ∀ l ∈ leads, l.length = 2) :=
  C5_counts testBuf (parsedHeader testBuf) {} (by decide) (by decide)

/-- C6: whenever the buffer-derived actual samples-per-lead differs from the
header's declared `sampleSizeEcg` (under the spec invariants `nLeads ≥ 1`,
`ecgBlockOffset ≤ B`), `parseEcgData` does not fail: it returns the decoded
data built from the actual count, with the non-fatal warning flag set. -/
theorem C6_mismatch_nonfatal (buf : ByteBuf) (h : IshneHeader)
    (hL : 1 ≤ h.nLeads) (hO : h.offsetEcgBlock ≤ buf.length)
    (hne : actualN buf h ≠ h.sampleSizeEcg) :
    parseEcgData buf (some h) = .ok ⟨ecgDecoded buf h (actualN buf h), true⟩ ∧
      (ecgDecoded buf h (actualN buf h)).length = h.nLeads ∧
      ∀ l ∈ ecgDecoded buf h (actualN buf h), l.length = actualN buf h := by
  refine ⟨?_, ?_, ?_⟩
  · rw [parseEcgData_ok_full hL hO]
    exact congrArg
      (fun b => Outcome.ok (⟨ecgDecoded buf h (actualN buf h), b⟩ : EcgResult))
      (decide_eq_true hne)
  · unfold ecgDecoded
    rw [List.length_map, List.length_range]
  · intro l hl
    unfold ecgDecoded at hl
    obtain ⟨lead, _, rfl⟩ := List.mem_map.mp hl
    rw [List.length_map, List.length_range]

theorem C6_witness :
    parseEcgData testBuf (some (parsedHeader testBuf)) =
      .ok ⟨ecgDecoded testBuf (parsedHeader testBuf) 2, true⟩ :=
  (C6_mismatch_nonfatal testBuf (parsedHeader testBuf) (by decide) (by decide)
    (by decide)).1

/-- C7: with `nLeads = 0` the sample decoder does not fail with a
FormatError before the division: the division `availableBytes / (2 * 0)` is
performed (yielding Infinity here, since bytes are available) and the
decoding loop never terminates.  The spec mandates a FormatError before any
division; the code has no such check. -/
theorem C7_nLeads_zero_diverges :
    (parsedHeader bufC7).nLeads = 0 ∧
    (parsedHeader bufC7).offsetEcgBlock = 0 ∧
    bufC7.length = 10 ∧
    parseEcgData bufC7 (some (parsedHeader bufC7)) = .diverge := by
  refine ⟨rfl, rfl, rfl, rfl⟩

/-- C9: for every buffer, header state, and options value, `exportToText`
produces exactly the chunk sequence of `exportToCsv` with the separator
forced to a tab character, and the caller-supplied separator is ignored. -/
theorem C9_text_equals_csv_tab (buf : ByteBuf) (hdr? : Option IshneHeader)
    (opts : ExportOptions) :
    exportToTextChunks buf hdr? opts =
      exportToCsvChunks buf hdr? { opts with separator := some "\t" } ∧
    ∀ s : Option String,
      exportToTextChunks buf hdr? { opts with separator := s } =
        exportToTextChunks buf hdr? opts :=
  ⟨rfl, fun _ => rfl⟩

theorem parseHeader_ok_iff {buf : ByteBuf} {h : IshneHeader} :
    parseHeader buf = .ok h ↔
      (readStringBytes buf 0 8 = magicBytes ∧ 274 ≤ buf.length ∧
        h = parsedHeader buf) := by
  rw [parseHeader_eq]
  by_cases hm : readStringBytes buf 0 8 ≠ magicBytes
  · rw [if_pos hm]
    constructor
    · intro hx; simp at hx
    · rintro ⟨hmagic, -, -⟩; exact absurd hmagic hm
  · have hm' := not_ne_iff.mp hm
    rw [if_neg hm]
    by_cases hlen : buf.length < 274
    · rw [if_pos hlen]
      constructor
      · intro hx; simp at hx
      · rintro ⟨-, hle, -⟩; omega
    · rw [if_neg hlen]
      constructor
      · intro hx; exact ⟨hm', by omega, (Except.ok.inj hx).symm⟩
      · rintro ⟨-, -, rfl⟩; rfl

/-- C3 counterexample: a 300-byte buffer — shorter than the 434-byte fixed
header region, let alone the 512-byte header — whose first 8 bytes are the
valid magic parses successfully; `parseHeader` does not fail at all, let
alone with a FormatError. -/
theorem C3_counterexample :
    buf300.length = 300 ∧ 300 < 434 ∧
      parseHeader buf300 = .ok (parsedHeader buf300) :=
  ⟨rfl, by omega, by decide⟩

/-- C3 amended: `parseHeader` fails with FormatError exactly when the
NUL-stripped first eight bytes differ from "ISHNE1.0" (in particular every
buffer shorter than 8 bytes fails with FormatError); with a valid magic it
succeeds if and only if the buffer holds at least 274 bytes (the end of the
furthest DataView read), so valid-magic buffers shorter than the fixed
header region but of length at least 274 parse successfully. -/
theorem C3_amended (buf : ByteBuf) :
    (parseHeader buf = .error .formatError ↔
      readStringBytes buf 0 8 ≠ magicBytes) ∧
    (buf.length < 8 → parseHeader buf = .error .formatError) ∧
    (∀ h : IshneHeader, parseHeader buf = .ok h ↔
      (readStringBytes buf 0 8 = magicBytes ∧ 274 ≤ buf.length ∧
        h = parsedHeader buf)) := by
  refine ⟨?_, ?_, fun h => parseHeader_ok_iff⟩
  · rw [parseHeader_eq]
    by_cases hm : readStringBytes buf 0 8 ≠ magicBytes
    · rw [if_pos hm]
      simp [hm]
    · rw [if_neg hm]
      by_cases hlen : buf.length < 274
      · rw [if_pos hlen]; simp [hm]
      · rw [if_neg hlen]; simp [hm]
  · intro hlen
    have hlt : (readStringBytes buf 0 8).length < 8 := by
      calc (readStringBytes buf 0 8).length
          ≤ (sliceBytes buf 0 8).length := stripTrailingNuls_length _
        _ ≤ buf.length := by
            unfold sliceBytes
            rw [List.length_take, List.length_drop]
            omega
        _ < 8 := hlen
    rw [parseHeader_eq, if_pos (fun heq => absurd (heq ▸ hlt) (by decide))]

theorem C3_witness :
    parseHeader (List.replicate 3 0) = .error .formatError ∧
      parseHeader buf300 = .ok (parsedHeader buf300) :=
  ⟨(C3_amended (List.replicate 3 0)).2.1 (by decide),
   ((C3_amended buf300).2.2 (parsedHeader buf300)).mpr ⟨by decide, by decide, rfl⟩⟩

/-- C8: each fixed-width text field of a successfully parsed header is the
field's slice with only the trailing NUL bytes removed: appending a run of
NULs restores the raw slice, and the produced text never ends in a NUL (and
nothing else — e.g. leading or trailing spaces — is stripped). -/
theorem C8_text_fields (buf : ByteBuf) (h : IshneHeader)
    (hok : parseHeader buf = .ok h) :
    (h.firstName = readStringBytes buf 28 40 ∧
     h.lastName = readStringBytes buf 68 40 ∧
     h.subjectId = readStringBytes buf 108 20 ∧
     h.recorder = readStringBytes buf 232 40 ∧
     h.proprietary = readStringBytes buf 274 80 ∧
     h.copyright = readStringBytes buf 354 80) ∧
    (∀ raw : List Nat, ∃ k,
      stripTrailingNuls raw ++ List.replicate k 0 = raw ∧
      (stripTrailingNuls raw).getLast? ≠ some 0) := by
  constructor
  · obtain ⟨-, -, rfl⟩ := parseHeader_ok_iff.mp hok
    exact ⟨rfl, rfl, rfl, rfl, rfl, rfl⟩
  · intro raw
    exact ⟨_, stripTrailingNuls_restore raw, stripTrailingNuls_last raw⟩

theorem C8_witness :
    (parsedHeader testBuf).firstName = readStringBytes testBuf 28 40 ∧
    (parsedHeader testBuf).lastName = readStringBytes testBuf 68 40 ∧
    (parsedHeader testBuf).subjectId = readStringBytes testBuf 108 20 ∧
    (parsedHeader testBuf).recorder = readStringBytes testBuf 232 40 ∧
    (parsedHeader testBuf).proprietary = readStringBytes testBuf 274 80 ∧
    (parsedHeader testBuf).copyright = readStringBytes testBuf 354 80 :=
  (C8_text_fields testBuf (parsedHeader testBuf) (by decide)).1

/-- C10: when `includeHeader` is set and `timeColumn` is false, the CSV/text
header row contains only the per-lead labels Lead1(mV), Lead2(mV), ...; the
"Time(s)" label appears in the header labels iff `timeColumn` is set; and
each data row likewise carries no time cell, only the per-lead cells. -/
theorem C10_header_row (buf : ByteBuf) (h : IshneHeader) (opts : ExportOptions)
    (hL : 1 ≤ h.nLeads) (hO : h.offsetEcgBlock ≤ buf.length)
    (hih : opts.includeHeader.getD true = true)
    (htc : opts.timeColumn.getD true = false) :
    generateCsvContent buf (some h) opts = .ok
      ((String.intercalate (opts.separator.getD ",")
          ((List.range h.nLeads).map leadLabel) ++ "\n") ::
        (List.range (actualN buf h)).map
          (csvRowString buf h (opts.separator.getD ",") false
            (opts.decimalPlaces.getD 2))) ∧
    (∀ i : Nat, leadLabel i ≠ "Time(s)") ∧
    (∀ tc : Bool, "Time(s)" ∈ csvHeaderLabels h tc ↔ tc = true) ∧
    (∀ i : Nat, csvRowString buf h (opts.separator.getD ",") false
        (opts.decimalPlaces.getD 2) i =
      String.intercalate (opts.separator.getD ",")
        ((List.range h.nLeads).map fun lead =>
          leadCellStr (rawAt buf h i lead) (h.resolution.get? lead)
            (opts.decimalPlaces.getD 2)) ++ "\n") := by
  have hLL : ∀ i : Nat, leadLabel i ≠ "Time(s)" := by
    intro i heq
    have hd := congrArg String.data heq
    rw [leadLabel, String.data_append, String.data_append] at hd
    rw [show ("Lead" : String).data = ['L', 'e', 'a', 'd'] from rfl,
      show ("Time(s)" : String).data = ['T', 'i', 'm', 'e', '(', 's', ')'] from rfl]
      at hd
    rw [List.append_assoc, List.cons_append] at hd
    injection hd with h1 _
    exact absurd h1 (by decide)
  refine ⟨?_, hLL, ?_, fun i => rfl⟩
  · rw [generateCsv_ok hL hO]
    unfold csvChunksSpec headerRowString csvHeaderLabels
    rw [hih, htc]
    rfl
  · intro tc
    cases tc
    · constructor
      · intro hmem
        rw [csvHeaderLabels] at hmem
        simp only [if_neg Bool.false_ne_true, List.nil_append, List.mem_map] at hmem
        obtain ⟨i, -, hbad⟩ := hmem
        exact absurd hbad (hLL i)
      · intro hf; cases hf
    · constructor
      · intro _; rfl
      · intro _
        rw [csvHeaderLabels]
        exact List.mem_append_left _ (List.mem_singleton_self _)

theorem C10_witness :
    generateCsvContent testBuf (some (parsedHeader testBuf))
        { timeColumn := some false } =
      .ok ((String.intercalate ","
          ((List.range (parsedHeader testBuf).nLeads).map leadLabel) ++ "\n") ::
        (List.range (actualN testBuf (parsedHeader testBuf))).map
          (csvRowString testBuf (parsedHeader testBuf) "," false 2)) :=
  (C10_header_row testBuf (parsedHeader testBuf) { timeColumn := some false }
    (by decide) (by decide) rfl rfl).1

/-- C4 counterexample: at raw sample 1015 with per-lead resolution 1000 and
two decimal places the exact scaled value is 1.015; rounding it to two
decimals gives 1.02 under the half-up tie rule and also under the half-even
tie rule, but the exporter (binary64 arithmetic plus `toFixed`) emits 1.01 —
the JSON value is the double nearest 1.01, not 1.02 — so the claimed
equality with `round(raw * resolution / 1_000_000, decimalPlaces)` fails. -/
theorem C4_counterexample :
    extractJsonAt (generateJsonLeads testBuf (some (parsedHeader testBuf)) {}) 0 0 =
      some ((4548635623644201 : ℚ) / 4503599627370496) ∧
    claimRound (((1015 * 1000 : Int) : ℚ) / 1000000) 2 = 51 / 50 ∧
    claimRoundHE (((1015 * 1000 : Int) : ℚ) / 1000000) 2 = 51 / 50 ∧
    ((4548635623644201 : ℚ) / 4503599627370496) ≠ 51 / 50 ∧
    rawAt testBuf (parsedHeader testBuf) 0 0 = 1015 ∧
    (parsedHeader testBuf).resolution.get? 0 = some 1000 :=
  ⟨by decide, by decide, by decide, by decide, by decide, by decide⟩

/-- C4 amended: for every lead and sample index in range the value emitted by
the JSON exporter equals `fl(toFixedVal(fl(raw * resolution / 1_000_000),
decimalPlaces))` — the binary64 quotient rounded to `decimalPlaces` by the
toFixed rule and re-parsed as a double — and the CSV/text cell is the
`toFixed` string of the binary64 quotient; this rather than the exact
decimal rounding of the claim. -/
theorem C4_amended (buf : ByteBuf) (h : IshneHeader) (opts : ExportOptions)
    (hL : 1 ≤ h.nLeads) (hO : h.offsetEcgBlock ≤ buf.length) :
    generateJsonLeads buf (some h) opts = .ok (jsonLeadsSpec buf h opts) ∧
    generateCsvContent buf (some h) opts = .ok (csvChunksSpec buf h opts) ∧
    (∀ (raw res : Int) (d : Nat), jsonLeadValue raw (some res) d =
      some (fl (toFixedVal (fl (((raw * res : Int) : ℚ) / 1000000)) d))) ∧
    (∀ (raw res : Int) (d : Nat), leadCellStr raw (some res) d =
      toFixedStr (fl (((raw * res : Int) : ℚ) / 1000000)) d) ∧
    (∀ lead i : Nat, lead < h.nLeads → i < actualN buf h →
      extractJsonAt (generateJsonLeads buf (some h) opts) lead i =
        jsonLeadValue (rawAt buf h i lead) (h.resolution.get? lead)
          (opts.decimalPlaces.getD 2)) := by
  refine ⟨generateJson_ok hL hO, generateCsv_ok hL hO,
    fun _ _ _ => rfl, fun _ _ _ => rfl, ?_⟩
  intro lead i hlead hi
  rw [generateJson_ok hL hO]
  have hred : extractJsonAt (.ok (jsonLeadsSpec buf h opts)) lead i =
      ((jsonLeadsSpec buf h opts).getD lead []).getD i none := rfl
  rw [hred]
  unfold jsonLeadsSpec
  rw [getD_map_range _ hlead, getD_map_range _ hi]

theorem C4_witness :
    generateJsonLeads testBuf (some (parsedHeader testBuf)) {} =
      .ok (jsonLeadsSpec testBuf (parsedHeader testBuf) {}) ∧
    generateCsvContent testBuf (some (parsedHeader testBuf)) {} =
      .ok (csvChunksSpec testBuf (parsedHeader testBuf) {}) :=
  ⟨(C4_amended testBuf (parsedHeader testBuf) {} (by decide) (by decide)).1,
   (C4_amended testBuf (parsedHeader testBuf) {} (by decide) (by decide)).2.1⟩
